import Mathlib

/-!
A shallow embedding of the editor core of `src/vin.cpp` (a modal terminal
text editor), together with proofs about its rendering pipeline, per-row
highlighter, buffer mutations, cursor motion, command mini-language and
save path.  C++ `std::string`s are modelled as `List Char`, machine `int`
indices that stay non-negative on all modelled paths as `Nat`, and the
per-row highlight byte array as a `List HL`.
-/

/-! ## Constants (`/** defines */` section of vin.cpp) -/

def TAB_STOP : Nat := 4

def BACKSPACE : Nat := 127
def ARROW_LEFT : Nat := 1000
def ARROW_RIGHT : Nat := 1001
def ARROW_UP : Nat := 1002
def ARROW_DOWN : Nat := 1003
def PAGE_UP : Nat := 1004
def PAGE_DOWN : Nat := 1005
def HOME_KEY : Nat := 1006
def END_KEY : Nat := 1007
def DEL_KEY : Nat := 1008

/-- `CTRL_KEY(k)` = `k & 0b00011111`. -/
def CTRL_KEY (k : Char) : Nat := k.toNat &&& 0b00011111

def HL_HIGHLIGHT_NUMBERS : Nat := 1
def HL_HIGHLIGHT_STRINGS : Nat := 2

/-- `enum editorHighlight`. -/
inductive HL where
  | normal
  | keyword1
  | keyword2
  | comment
  | string
  | number
  deriving DecidableEq, Repr

/-- `enum editorMode`. -/
inductive Mode where
  | normal
  | command
  | insert
  deriving DecidableEq, Repr

/-- `struct editorSyntax`. -/
structure editorSyntax where
  filetype : List Char
  filematch : List (List Char)
  keywords : List (List Char)
  singleline_comment_start : List Char
  flags : Nat
  deriving DecidableEq, Repr

/-- `struct editorRow`: raw text plus the derived rendered text and
highlight classes. -/
structure editorRow where
  raw_row : List Char
  rendered_row : List Char
  highlight_row : List HL
  deriving DecidableEq, Repr, Inhabited

/-- The parts of `struct editorConfig` that the editing core reads and
writes (the `termios` handle is terminal-collaborator state and is not
modelled).  The `syntax` member of the C++ struct is named `syn` here
because `syntax` is reserved in Lean. -/
structure editorConfig where
  mode : Mode
  cursor_x : Nat
  cursor_y : Nat
  rendered_x : Nat
  screen_rows : Nat
  screen_cols : Nat
  row_offset : Nat
  col_offset : Nat
  dirty : Bool
  rows : List editorRow
  filename : List Char
  command_bar : List Char
  normal_buf : List Char
  command_buf : List Char
  syn : editorSyntax
  deriving DecidableEq, Repr

/-! ## Syntax highlighting (`/** syntax highlighting */` section) -/

/-- C `isspace` on the default locale (space, `\t`, `\n`, `\v`, `\f`, `\r`). -/
def isspace (c : Char) : Bool :=
  c = ' ' || c = '\t' || c = '\n' || c = Char.ofNat 11 || c = Char.ofNat 12 || c = '\r'

/-- C `isdigit`. -/
def isdigit (c : Char) : Bool := '0' ≤ c && c ≤ '9'

/-- `is_separator`: whitespace, NUL, or one of the sixteen punctuation
characters of the `strchr` set in the source (comma, period, parentheses,
arithmetic operators, tilde, percent, angle brackets, square brackets,
semicolon). -/
def is_separator (c : Char) : Bool :=
  isspace c || c = Char.ofNat 0 ||
    ([',', '.', '(', ')', '+', '-', '/', '*', '=', '~', '%', '<', '>', '[', ']', ';'].contains c)

/-- `strncmp(hay, pat, pat.length) == 0` where `hay` is the
null-terminated tail of the rendered row: the pattern (which contains no
NUL) must be fully present at the head of `hay`. -/
def matchAt : List Char → List Char → Bool
  | _, [] => true
  | [], _ :: _ => false
  | h :: hs, p :: ps => h = p && matchAt hs ps

/-- The keyword scan of `editorUpdateSyntax`: try each keyword in order; a
keyword ending in `'|'` is a second-class keyword whose effective length
excludes the bar; a match needs `strncmp` to succeed and the character
after the keyword (`rendered[i + klen]`, which is the terminating NUL when
the keyword ends the row, hence the `Char.ofNat 0` default) to be a
separator.  Returns the effective length and the second-class flag of the
first matching keyword. -/
def findKeyword (keywords : List (List Char)) (rendered : List Char) (i : Nat) :
    Option (Nat × Bool) :=
  match keywords with
  | [] => none
  | kw :: rest =>
    let kw2 := kw.getD (kw.length - 1) (Char.ofNat 0) = '|'
    let klen := if kw2 then kw.length - 1 else kw.length
    if matchAt (rendered.drop i) (kw.take klen) ∧
        is_separator (rendered.getD (i + klen) (Char.ofNat 0)) then
      some (klen, kw2)
    else findKeyword rest rendered i

/-- `memset(highlight + start, v, n)` on a `List HL`. -/
def setRange : List HL → Nat → Nat → HL → List HL
  | hl, _, 0, _ => hl
  | hl, start, n + 1, v => setRange (hl.set start v) (start + 1) n v

/-- The `while (i < len)` loop of `editorUpdateSyntax`, with an explicit
fuel argument (each loop iteration either advances `i` or lowers
`prev_sep` from true to false, so `2 * len + 1` fuel always suffices; see
`editorUpdateSyntax`).  State: the highlight array being filled, the scan
position `i`, `prev_sep`, and `in_string` (`Char.ofNat 0` encodes the C++
falsy `char in_string = 0`). -/
def updateSyntaxLoop (syn : editorSyntax) (rendered : List Char) :
    Nat → List HL → Nat → Bool → Char → List HL
  | 0, hl, _, _, _ => hl
  | fuel + 1, hl, i, prev_sep, in_string =>
    if i < rendered.length then
      let c := rendered.getD i (Char.ofNat 0)
      let prev_hl := if 0 < i then hl.getD (i - 1) HL.normal else HL.normal
      if syn.singleline_comment_start.length ≠ 0 ∧ in_string = Char.ofNat 0 ∧
          matchAt (rendered.drop i) syn.singleline_comment_start then
        setRange hl i (rendered.length - i) HL.comment
      else if syn.flags &&& HL_HIGHLIGHT_STRINGS ≠ 0 ∧ in_string ≠ Char.ofNat 0 then
        let hl1 := hl.set i HL.string
        if c = '\\' ∧ i + 1 < rendered.length then
          updateSyntaxLoop syn rendered fuel (hl1.set (i + 1) HL.string) (i + 2)
            prev_sep in_string
        else
          updateSyntaxLoop syn rendered fuel hl1 (i + 1) true
            (if c = in_string then Char.ofNat 0 else in_string)
      else if syn.flags &&& HL_HIGHLIGHT_STRINGS ≠ 0 ∧ in_string = Char.ofNat 0 ∧
          (c = '"' ∨ c = '\'') then
        updateSyntaxLoop syn rendered fuel (hl.set i HL.string) (i + 1) prev_sep c
      else if syn.flags &&& HL_HIGHLIGHT_NUMBERS ≠ 0 ∧
          ((isdigit c ∧ (prev_sep ∨ prev_hl = HL.number)) ∨
           (c = '.' ∧ prev_hl = HL.number)) then
        updateSyntaxLoop syn rendered fuel (hl.set i HL.number) (i + 1) false in_string
      else if prev_sep then
        match findKeyword syn.keywords rendered i with
        | some (klen, kw2) =>
          updateSyntaxLoop syn rendered fuel
            (setRange hl i klen (if kw2 then HL.keyword2 else HL.keyword1))
            (i + klen) false in_string
        | none => updateSyntaxLoop syn rendered fuel hl i false in_string
      else
        updateSyntaxLoop syn rendered fuel hl (i + 1) (is_separator c) in_string
    else hl

/-- `editorUpdateSyntax`: start from an all-`Normal` array of the rendered
row's length; an empty filetype (no syntax rule selected) leaves every
class `Normal`; otherwise run the scan loop from position 0 with
`prev_sep = true` and no open string. -/
def editorUpdateSyntax (syn : editorSyntax) (rendered : List Char) : List HL :=
  let hl := List.replicate rendered.length HL.normal
  if syn.filetype = [] then hl
  else updateSyntaxLoop syn rendered (2 * rendered.length + 1) hl 0 true (Char.ofNat 0)

/-! ## Row rendering (`/** row operations */` section) -/

/-- The inner `while (rendered.size() % TAB_STOP != 0) rendered += ' ';`
of `editorUpdateRow`, with fuel `TAB_STOP` (at most `TAB_STOP - 1`
iterations ever run; see `padTabStop_spec`). -/
def padTabStopFuel : Nat → List Char → List Char
  | 0, r => r
  | fuel + 1, r =>
    if r.length % TAB_STOP ≠ 0 then padTabStopFuel fuel (r ++ [' ']) else r

def padTabStop (r : List Char) : List Char := padTabStopFuel TAB_STOP r

/-- One iteration of the `for (auto c : row.raw_row)` loop of
`editorUpdateRow`: a tab appends one space then pads to the next multiple
of `TAB_STOP`; any other character is appended unchanged. -/
def renderStep (r : List Char) (c : Char) : List Char :=
  if c = '\t' then padTabStop (r ++ [' ']) else r ++ [c]

/-- The rendering part of `editorUpdateRow`: rebuild `rendered_row` from
`raw_row`. -/
def renderRow (raw : List Char) : List Char := raw.foldl renderStep []

/-- `editorUpdateRow`: regenerate `rendered_row` from `raw_row`, then
regenerate `highlight_row` from the new `rendered_row`
(`editorUpdateSyntax` is called at the end of the C++ function). -/
def editorUpdateRow (syn : editorSyntax) (row : editorRow) : editorRow :=
  let rendered := renderRow row.raw_row
  { row with rendered_row := rendered,
             highlight_row := editorUpdateSyntax syn rendered }

/-- `editorComputeRenderedX`: display column of `cursor_x`, walking the
first `cursor_x` raw characters with the same tab-stop rule. -/
def editorComputeRenderedX (s : List Char) (cursor_x : Nat) : Nat :=
  (s.take cursor_x).foldl
    (fun rendered_x c =>
      if c = '\t' then rendered_x + (TAB_STOP - rendered_x % TAB_STOP)
      else rendered_x + 1) 0

/-! ## Row and editor operations -/

/-- `editorInsertRow(at, s)`: no-op when the index is out of range
(`at < 0` cannot arise with `Nat` indices), otherwise insert a fresh row
built from `s`, update it, and set `dirty`. -/
def editorInsertRow (E : editorConfig) (at_ : Nat) (s : List Char) : editorConfig :=
  if at_ > E.rows.length then E
  else { E with
         rows := E.rows.take at_ ++
           editorUpdateRow E.syn ⟨s, [], []⟩ :: E.rows.drop at_,
         dirty := true }

/-- `editorRowInsertChar(row, at, c)` on the row at index `idx`: clamp the
insertion point to the end, insert the character, re-derive the row, set
`dirty`. -/
def editorRowInsertChar (E : editorConfig) (idx : Nat) (at_ : Nat) (c : Char) :
    editorConfig :=
  let row := E.rows.getD idx default
  let at2 := if at_ > row.raw_row.length then row.raw_row.length else at_
  let row' := editorUpdateRow E.syn
      { row with raw_row := row.raw_row.take at2 ++ c :: row.raw_row.drop at2 }
  { E with rows := E.rows.set idx row', dirty := true }

/-- `editorRowDelChar(row, at)` on the row at index `idx`: no-op unless
`0 < at ≤ |raw|`; otherwise erase the character before `at`, re-derive,
set `dirty`. -/
def editorRowDelChar (E : editorConfig) (idx : Nat) (at_ : Nat) : editorConfig :=
  let row := E.rows.getD idx default
  if at_ = 0 ∨ at_ > row.raw_row.length then E
  else
    let row' := editorUpdateRow E.syn
        { row with raw_row := row.raw_row.take (at_ - 1) ++ row.raw_row.drop at_ }
    { E with rows := E.rows.set idx row', dirty := true }

/-- `editorRowAppendString(row, to_append)` on the row at index `idx`. -/
def editorRowAppendString (E : editorConfig) (idx : Nat) (to_append : List Char) :
    editorConfig :=
  let row := E.rows.getD idx default
  let row' := editorUpdateRow E.syn { row with raw_row := row.raw_row ++ to_append }
  { E with rows := E.rows.set idx row', dirty := true }

/-- `editorDelRow(at)`: erase the row at `at` if in range, set `dirty`. -/
def editorDelRow (E : editorConfig) (at_ : Nat) : editorConfig :=
  if at_ ≥ E.rows.length then E
  else { E with rows := E.rows.take at_ ++ E.rows.drop (at_ + 1), dirty := true }

/-- `editorInsertChar(c)`: on the one-past-the-last sentinel row, first
append a fresh empty row; then insert into the current row at `cursor_x`
and advance the cursor one column. -/
def editorInsertChar (E : editorConfig) (c : Char) : editorConfig :=
  let E1 := if E.cursor_y = E.rows.length then editorInsertRow E E.rows.length [] else E
  let E2 := editorRowInsertChar E1 E1.cursor_y E1.cursor_x c
  { E2 with cursor_x := E2.cursor_x + 1 }

/-- `editorInsertNewline()`: at column 0 insert an empty row before the
current one; otherwise insert the tail `raw[cursor_x ..]` as a new row
after the current one, truncate the current row to `raw[0 .. cursor_x)`
and re-derive it.  Either way the cursor moves to column 0 of the next
row. -/
def editorInsertNewline (E : editorConfig) : editorConfig :=
  let E' :=
    if E.cursor_x = 0 then editorInsertRow E E.cursor_y []
    else
      let E1 := editorInsertRow E (E.cursor_y + 1)
          ((E.rows.getD E.cursor_y default).raw_row.drop E.cursor_x)
      let row := E1.rows.getD E1.cursor_y default
      let row' := editorUpdateRow E1.syn
          { row with raw_row := row.raw_row.take E1.cursor_x }
      { E1 with rows := E1.rows.set E1.cursor_y row' }
  { E' with cursor_x := 0, cursor_y := E'.cursor_y + 1 }

/-- `editorDelChar()`: no-op on the sentinel row or at the very start of
the buffer; at column 0 join the current row onto the previous one
(deleting it and moving the cursor to the former join point), otherwise
delete the character before the cursor. -/
def editorDelChar (E : editorConfig) : editorConfig :=
  if E.cursor_y = E.rows.length then E
  else if E.cursor_x = 0 ∧ E.cursor_y = 0 then E
  else if E.cursor_x = 0 then
    let E1 := { E with cursor_x := (E.rows.getD (E.cursor_y - 1) default).raw_row.length }
    let E2 := editorRowAppendString E1 (E1.cursor_y - 1)
        ((E1.rows.getD E1.cursor_y default).raw_row)
    let E3 := editorDelRow E2 E2.cursor_y
    { E3 with cursor_y := E3.cursor_y - 1 }
  else
    let E1 := editorRowDelChar E E.cursor_y E.cursor_x
    { E1 with cursor_x := E1.cursor_x - 1 }

/-! ## File I/O (`/** file i/o */` section).  Byte I/O is a collaborator:
the lines read by `editorOpen` (already stripped of line endings by the
`getline` loop) and the outcome of the `open`/`ftruncate`/`write` calls in
`editorSave` are parameters of the model. -/

/-- The row-loading loop of `editorOpen`: append each line as a row, then
clear `dirty`. -/
def editorOpenRows (E : editorConfig) (lines : List (List Char)) : editorConfig :=
  let E1 := lines.foldl (fun E line => editorInsertRow E E.rows.length line) E
  { E1 with dirty := false }

/-- `editorRowsToString`: each raw row followed by a single newline. -/
def editorRowsToString (E : editorConfig) : List Char :=
  E.rows.foldl (fun acc r => acc ++ r.raw_row ++ ['\n']) []

/-- `editorSetStatusMessage` formats into a `char buf[80]`, so the stored
message keeps at most 79 characters. -/
def editorSetStatusMessage (E : editorConfig) (s : List Char) : editorConfig :=
  { E with command_bar := s.take 79 }

/-- Decimal rendering of the `%d` byte count. -/
def natToChars (n : Nat) : List Char := (Nat.repr n).toList

/-- Outcome of the `open`/`ftruncate`/`write` system calls during
`editorSave`; failures carry the `strerror(errno)` description. -/
inductive SaveOutcome where
  | openFail (err : List Char)
  | truncateFail (err : List Char)
  | shortWrite (err : List Char)
  | success
  deriving DecidableEq, Repr

/-- `editorSave()`: silently return with no filename; on a full write
report the byte count and clear `dirty`; on any failure report an I/O
error with the `errno` description and leave everything else alone. -/
def editorSave (E : editorConfig) (out : SaveOutcome) : editorConfig :=
  if E.filename = [] then E
  else
    let representation := editorRowsToString E
    let len := representation.length
    match out with
    | .success =>
        { editorSetStatusMessage E
            (natToChars len ++ (" bytes written to disk").toList) with
          dirty := false }
    | .openFail err | .truncateFail err | .shortWrite err =>
        editorSetStatusMessage E (("Can't save! I/O error: ").toList ++ err)

/-- Result of a step that may reach `exit(0)`. -/
inductive CmdResult where
  | cont (E : editorConfig)
  | exited
  deriving DecidableEq, Repr

/-- `editorExecuteCommand()`: `q` refuses while dirty and otherwise exits,
`q!` always exits, `w` saves, anything else reports an unsupported
command. -/
def editorExecuteCommand (E : editorConfig) (out : SaveOutcome) : CmdResult :=
  if E.command_buf = ("q").toList then
    if E.dirty then
      .cont (editorSetStatusMessage E
        ("File has unsaved changes. Use :q! to force quit").toList)
    else .exited
  else if E.command_buf = ("q!").toList then .exited
  else if E.command_buf = ("w").toList then .cont (editorSave E out)
  else .cont (editorSetStatusMessage E
    (("Unsupported command: ").toList ++ E.command_buf))

/-! ## Input (`/** input */` section) -/

/-- `editorMoveCursor(c)`: the four motion primitives, followed by the
snap-to-end-of-row clamp.  `not_on_last` is computed once on entry, as in
the source. -/
def editorMoveCursor (c : Nat) (E : editorConfig) : editorConfig :=
  let not_on_last := E.cursor_y < E.rows.length
  let E1 :=
    if c = ARROW_LEFT ∨ c = ('h').toNat then
      if E.cursor_x > 0 then { E with cursor_x := E.cursor_x - 1 }
      else if E.cursor_y > 0 then
        { E with cursor_y := E.cursor_y - 1,
                 cursor_x := (E.rows.getD (E.cursor_y - 1) default).raw_row.length }
      else E
    else if c = ARROW_RIGHT ∨ c = ('l').toNat then
      if not_on_last ∧ E.cursor_x < (E.rows.getD E.cursor_y default).raw_row.length then
        { E with cursor_x := E.cursor_x + 1 }
      else if not_on_last ∧
          E.cursor_x = (E.rows.getD E.cursor_y default).raw_row.length then
        { E with cursor_y := E.cursor_y + 1, cursor_x := 0 }
      else E
    else if c = ARROW_DOWN ∨ c = ('j').toNat then
      if E.cursor_y < E.rows.length then { E with cursor_y := E.cursor_y + 1 } else E
    else if c = ARROW_UP ∨ c = ('k').toNat then
      if E.cursor_y > 0 then { E with cursor_y := E.cursor_y - 1 } else E
    else E
  let row_len := if E1.cursor_y ≥ E1.rows.length then 0
                 else (E1.rows.getD E1.cursor_y default).raw_row.length
  if E1.cursor_x > row_len then { E1 with cursor_x := row_len } else E1

/-- `n` successive right motions. -/
def moveRightN : Nat → editorConfig → editorConfig
  | 0, E => E
  | n + 1, E => moveRightN n (editorMoveCursor ARROW_RIGHT E)

/-- The `int times = E.screen_rows; while (times--) editorMoveCursor(...)`
loop shared by the Page Up/Down handlers. -/
def repeatMove : Nat → Nat → editorConfig → editorConfig
  | 0, _, E => E
  | n + 1, c, E => repeatMove n c (editorMoveCursor c E)

/-- The Page Up/Down handler: jump the cursor to the top (or clamped
bottom) of the viewport, then take `screen_rows` single vertical steps. -/
def pageMove (E : editorConfig) (c : Nat) : editorConfig :=
  let E1 :=
    if c = PAGE_UP then { E with cursor_y := E.row_offset }
    else
      let y := E.row_offset + E.screen_rows - 1
      { E with cursor_y := if y > E.rows.length then E.rows.length else y }
  repeatMove E1.screen_rows (if c = PAGE_UP then ARROW_UP else ARROW_DOWN) E1

/-- The `G` handler: `while (E.cursor_y != E.rows.size())` move down.
Each iteration increments `cursor_y` (which starts at most at
`E.rows.length` in every reachable state), so `E.rows.length + 1` fuel
suffices. -/
def gotoEndFuel : Nat → editorConfig → editorConfig
  | 0, E => E
  | fuel + 1, E =>
    if E.cursor_y ≠ E.rows.length then gotoEndFuel fuel (editorMoveCursor ARROW_DOWN E)
    else E

def gotoEnd (E : editorConfig) : editorConfig := gotoEndFuel (E.rows.length + 1) E

/-- `editorProcessKeypress()` on an already-decoded key `c` (the byte
reading and escape decoding of `editorReadKey` are the terminal
collaborator).  The NORMAL-mode `case '\r':` in the source has no
`break` and falls through into the `HOME_KEY`/`'0'` handler, so Enter
moves down one row and then zeroes `cursor_x`. -/
def editorProcessKeypress (E : editorConfig) (c : Nat) (out : SaveOutcome) : CmdResult :=
  if E.mode = Mode.insert then
    .cont (
      if c = ('\x1b').toNat then { E with mode := Mode.normal }
      else if c = ('\r').toNat then editorInsertNewline E
      else if c = HOME_KEY then { E with cursor_x := 0 }
      else if c = END_KEY then
        if E.cursor_y < E.rows.length then
          { E with cursor_x := (E.rows.getD E.cursor_y default).raw_row.length }
        else E
      else if c = BACKSPACE ∨ c = CTRL_KEY 'h' ∨ c = DEL_KEY then
        editorDelChar (if c = DEL_KEY then editorMoveCursor ARROW_RIGHT E else E)
      else if c = PAGE_UP ∨ c = PAGE_DOWN then pageMove E c
      else if c = ARROW_LEFT ∨ c = ARROW_DOWN ∨ c = ARROW_UP ∨ c = ARROW_RIGHT then
        editorMoveCursor c E
      else if c = CTRL_KEY 'l' then E
      else editorInsertChar E (Char.ofNat c))
  else if E.mode = Mode.normal then
    if E.normal_buf = [] then
      .cont (
        if c = ('i').toNat then { E with normal_buf := [], mode := Mode.insert }
        else if c = (':').toNat then
          editorSetStatusMessage { E with normal_buf := [], mode := Mode.command } [':']
        else if c = ('\x1b').toNat then { E with mode := Mode.normal }
        else if c = ('\r').toNat then
          { editorMoveCursor ARROW_DOWN E with cursor_x := 0 }
        else if c = HOME_KEY ∨ c = ('0').toNat then { E with cursor_x := 0 }
        else if c = END_KEY ∨ c = ('$').toNat then
          if E.cursor_y < E.rows.length then
            { E with cursor_x := (E.rows.getD E.cursor_y default).raw_row.length }
          else E
        else if c = BACKSPACE ∨ c = CTRL_KEY 'h' then editorMoveCursor ARROW_LEFT E
        else if c = PAGE_UP ∨ c = PAGE_DOWN then pageMove E c
        else if c = ARROW_LEFT ∨ c = ARROW_DOWN ∨ c = ARROW_UP ∨ c = ARROW_RIGHT ∨
            c = ('h').toNat ∨ c = ('j').toNat ∨ c = ('k').toNat ∨ c = ('l').toNat then
          editorMoveCursor c E
        else if c = CTRL_KEY 'l' then E
        else if c = ('G').toNat then gotoEnd E
        else E)
    else
      .cont (if c = BACKSPACE then { E with normal_buf := E.normal_buf.dropLast } else E)
  else
    if c = ('\r').toNat then
      match editorExecuteCommand E out with
      | .exited => .exited
      | .cont E1 => .cont { E1 with command_buf := [], mode := Mode.normal }
    else .cont (
      if c = ('\x1b').toNat then
        editorSetStatusMessage { E with command_buf := [], mode := Mode.normal } []
      else if c = BACKSPACE then
        if E.command_buf ≠ [] then
          let E1 := { E with command_buf := E.command_buf.dropLast }
          editorSetStatusMessage E1 (':' :: E1.command_buf)
        else editorSetStatusMessage { E with mode := Mode.normal } []
      else
        let E1 := { E with command_buf := E.command_buf ++ [Char.ofNat c] }
        editorSetStatusMessage E1 (':' :: E1.command_buf))

/-! ## The C filetype rule (`/** filetypes */` section) and helper
states for concrete runs -/

def C_HL_extensions : List (List Char) :=
  [(".c").toList, (".h").toList, (".cpp").toList]

def C_HL_keywords : List (List Char) :=
  [("switch").toList, ("if").toList, ("while").toList, ("for").toList,
   ("break").toList, ("continue").toList, ("return").toList, ("else").toList,
   ("struct").toList, ("union").toList, ("typedef").toList, ("static").toList,
   ("enum").toList, ("class").toList, ("case").toList, ("int|").toList,
   ("long|").toList, ("double|").toList, ("float|").toList, ("char|").toList,
   ("unsigned|").toList, ("signed|").toList, ("void|").toList]

/-- The single `HLDB` entry for C-like files. -/
def cSyntax : editorSyntax :=
  { filetype := ("c").toList
    filematch := C_HL_extensions
    keywords := C_HL_keywords
    singleline_comment_start := ("//").toList
    flags := HL_HIGHLIGHT_NUMBERS ||| HL_HIGHLIGHT_STRINGS }

/-- A syntax slot with no rule selected (`editorSyntax syntax;` default
member, empty filetype: highlighting disabled). -/
def emptySyntax : editorSyntax :=
  { filetype := [], filematch := [], keywords := [],
    singleline_comment_start := [], flags := 0 }

/-- The freshly-initialised editor state (`struct editorConfig E;` with
its member initialisers), before any file is opened. -/
def baseConfig : editorConfig :=
  { mode := Mode.normal, cursor_x := 0, cursor_y := 0, rendered_x := 0,
    screen_rows := 0, screen_cols := 0, row_offset := 0, col_offset := 0,
    dirty := false, rows := [], filename := [], command_bar := [],
    normal_buf := [], command_buf := [], syn := emptySyntax }

/-- A row as produced by loading raw text `s` (all derived data freshly
computed, as `editorInsertRow` does). -/
def mkRow (syn : editorSyntax) (s : List Char) : editorRow :=
  editorUpdateRow syn ⟨s, [], []⟩

/-! ## List surgery helper lemmas -/

lemma getD_append_length {α : Type} (A : List α) (x : α) (B : List α) (d : α) :
    (A ++ x :: B).getD A.length d = x := by
  induction A with
  | nil => rfl
  | cons a A ih => simpa using ih

lemma getD_append_length_succ {α : Type} (A : List α) (x y : α) (B : List α) (d : α) :
    (A ++ x :: y :: B).getD (A.length + 1) d = y := by
  induction A with
  | nil => rfl
  | cons a A ih => simpa using ih

lemma set_append_length {α : Type} (A : List α) (x y : α) (B : List α) :
    (A ++ x :: B).set A.length y = A ++ y :: B := by
  induction A with
  | nil => rfl
  | cons a A ih => simp [ih]

lemma take_append_length_succ {α : Type} (A : List α) (x : α) (B : List α) :
    (A ++ x :: B).take (A.length + 1) = A ++ [x] := by
  induction A with
  | nil => rfl
  | cons a A ih => simpa using ih

lemma drop_append_length_succ {α : Type} (A : List α) (x : α) (B : List α) :
    (A ++ x :: B).drop (A.length + 1) = B := by
  induction A with
  | nil => rfl
  | cons a A ih => simp [ih]

lemma getD_append_lt {α : Type} (A B : List α) (i : Nat) (d : α) (h : i < A.length) :
    (A ++ B).getD i d = A.getD i d := by
  induction A generalizing i with
  | nil => simp at h
  | cons a A ih =>
    cases i with
    | zero => rfl
    | succ i => simpa using ih i (by simpa using h)

lemma take_reconstruct {α : Type} (R : List α) (r : Nat) (d : α) (h : r < R.length) :
    R.take r ++ R.getD r d :: R.drop (r + 1) = R := by
  induction R generalizing r with
  | nil => simp at h
  | cons a R ih =>
    cases r with
    | zero => rfl
    | succ r => simpa using ih r (by simpa using h)

/-! ## Tab rendering lemmas (C2) -/

lemma padTabStopFuel_spec (fuel : Nat) :
    ∀ (r : List Char), (TAB_STOP - r.length % TAB_STOP) % TAB_STOP ≤ fuel →
      padTabStopFuel fuel r =
        r ++ List.replicate ((TAB_STOP - r.length % TAB_STOP) % TAB_STOP) ' ' := by
  simp only [TAB_STOP]
  induction fuel with
  | zero =>
    intro r h
    have h0 : r.length % 4 = 0 := by omega
    simp [padTabStopFuel, TAB_STOP, h0]
  | succ fuel ih =>
    intro r h
    simp only [padTabStopFuel, TAB_STOP]
    by_cases hmod : r.length % 4 = 0
    · rw [if_neg (by omega)]
      have h0 : (4 - r.length % 4) % 4 = 0 := by omega
      simp [h0]
    · rw [if_pos hmod]
      have hlen : (r ++ [' ']).length = r.length + 1 := by simp
      rw [ih (r ++ [' ']) (by rw [hlen]; omega), hlen, List.append_assoc]
      have harith : (4 - (r.length + 1) % 4) % 4 + 1 = (4 - r.length % 4) % 4 := by
        omega
      rw [← harith, List.replicate_succ]
      rfl

lemma padTabStop_spec (r : List Char) :
    padTabStop r = r ++ List.replicate ((TAB_STOP - r.length % TAB_STOP) % TAB_STOP) ' ' :=
  padTabStopFuel_spec TAB_STOP r (by simp only [TAB_STOP]; omega)

lemma renderStep_tab (r : List Char) :
    renderStep r '\t' = r ++ List.replicate (TAB_STOP - r.length % TAB_STOP) ' ' := by
  rw [renderStep, if_pos rfl, padTabStop_spec, List.append_assoc]
  simp only [TAB_STOP]
  have hlen : (r ++ [' ']).length = r.length + 1 := by simp
  rw [hlen]
  have harith : (4 - (r.length + 1) % 4) % 4 + 1 = 4 - r.length % 4 := by omega
  rw [← harith, List.replicate_succ]
  rfl

lemma renderStep_length_lb (r : List Char) (c : Char) :
    r.length + 1 ≤ (renderStep r c).length := by
  by_cases hc : c = '\t'
  · subst hc
    rw [renderStep_tab]
    simp only [TAB_STOP, List.length_append, List.length_replicate]
    omega
  · rw [renderStep, if_neg hc]
    simp

lemma foldl_renderStep_length (l : List Char) :
    ∀ acc : List Char, acc.length + l.length ≤ (List.foldl renderStep acc l).length := by
  induction l with
  | nil => intro acc; simp
  | cons c l ih =>
    intro acc
    have h1 := renderStep_length_lb acc c
    have h2 := ih (renderStep acc c)
    simp only [List.foldl_cons, List.length_cons]
    omega

/-! ## Highlighter length preservation -/

lemma setRange_length (n : Nat) :
    ∀ (hl : List HL) (start : Nat) (v : HL), (setRange hl start n v).length = hl.length := by
  induction n with
  | zero => intro hl start v; rfl
  | succ n ih => intro hl start v; simp [setRange, ih, List.length_set]

lemma updateSyntaxLoop_length (syn : editorSyntax) (rendered : List Char) (fuel : Nat) :
    ∀ (hl : List HL) (i : Nat) (ps : Bool) (q : Char),
      (updateSyntaxLoop syn rendered fuel hl i ps q).length = hl.length := by
  induction fuel with
  | zero => intro hl i ps q; rfl
  | succ fuel ih =>
    intro hl i ps q
    simp only [updateSyntaxLoop]
    split_ifs <;>
      first
      | rfl
      | simp [ih, setRange_length, List.length_set]
      | (rename_i hps _
         rcases hfk : findKeyword syn.keywords rendered i with _ | ⟨klen, kw2⟩ <;>
           simp [hfk, ih, setRange_length, List.length_set])

lemma editorUpdateSyntax_length (syn : editorSyntax) (rendered : List Char) :
    (editorUpdateSyntax syn rendered).length = rendered.length := by
  rw [editorUpdateSyntax]
  split_ifs <;> simp [updateSyntaxLoop_length]

/-- C2.  Tab rendering: each tab expands to spaces reaching the next
multiple of `TAB_STOP`; formally, the expanded length is a multiple of
`TAB_STOP`, strictly greater than the column before the tab, and least
among such multiples; every non-tab character passes through unchanged;
and the rendered row is never shorter than the raw row. -/
theorem vin_tab_rendering (raw r : List Char) (c : Char) :
    raw.length ≤ (renderRow raw).length ∧
    renderStep r c = (if c = '\t'
        then r ++ List.replicate (TAB_STOP - r.length % TAB_STOP) ' '
        else r ++ [c]) ∧
    (r.length + (TAB_STOP - r.length % TAB_STOP)) % TAB_STOP = 0 ∧
    r.length < r.length + (TAB_STOP - r.length % TAB_STOP) ∧
    (∀ m, r.length < m → m % TAB_STOP = 0 →
      r.length + (TAB_STOP - r.length % TAB_STOP) ≤ m) := by
  refine ⟨by simpa using foldl_renderStep_length raw [], ?_, ?_, ?_, ?_⟩
  · by_cases hc : c = '\t'
    · subst hc; rw [if_pos rfl, renderStep_tab]
    · rw [if_neg hc, renderStep, if_neg hc]
  · simp only [TAB_STOP]; omega
  · simp only [TAB_STOP]; omega
  · intro m h1 h2; simp only [TAB_STOP] at h2 ⊢; omega

theorem vin_tab_rendering_witness :
    renderStep ['x'] '\t' = ['x', ' ', ' ', ' '] ∧
    (['x', '\t'] : List Char).length ≤ (renderRow ['x', '\t']).length ∧
    (['x'] : List Char).length +
      (TAB_STOP - (['x'] : List Char).length % TAB_STOP) ≤ 4 := by
  have h := vin_tab_rendering ['x', '\t'] ['x'] '\t'
  exact ⟨by rw [h.2.1]; decide, h.1, h.2.2.2.2 4 (by decide) (by decide)⟩

/-- C3.  Keyword matching needs a trailing separator: the keyword scan
only reports a match when the character after the keyword is a separator,
and under the C rule the row `iffy` has no keyword position while `if (`
classifies exactly positions 0 and 1 as `Keyword1`. -/
theorem vin_keyword_trailing_separator
    (kws : List (List Char)) (rendered : List Char) (i klen : Nat) (k2 : Bool) :
    (findKeyword kws rendered i = some (klen, k2) →
        is_separator (rendered.getD (i + klen) (Char.ofNat 0)) = true) ∧
    editorUpdateSyntax cSyntax ("iffy").toList =
        [HL.normal, HL.normal, HL.normal, HL.normal] ∧
    editorUpdateSyntax cSyntax ("if (").toList =
        [HL.keyword1, HL.keyword1, HL.normal, HL.normal] := by
  refine ⟨?_, by decide, by decide⟩
  induction kws with
  | nil => intro h; simp [findKeyword] at h
  | cons kw rest ih =>
    intro h
    simp only [findKeyword] at h
    split at h <;> split at h <;>
      first
      | exact ih h
      | (rename_i hcond
         simp only [Option.some.injEq, Prod.mk.injEq] at h
         obtain ⟨h1, -⟩ := h
         subst h1
         exact hcond.2)

theorem vin_keyword_trailing_separator_witness :
    is_separator ((("if (").toList).getD (0 + 2) (Char.ofNat 0)) = true :=
  (vin_keyword_trailing_separator cSyntax.keywords ("if (").toList 0 2 false).1
    (by decide)

/-- C4.  String highlighting with escapes: under the C rule the quoted
row with an escaped quote is classified `String` throughout; in general,
inside a string a backslash (not at the last position) classifies itself
and the next character as `String` and advances two positions, and the
string ends exactly when the opening quote character reappears unescaped,
with the closing delimiter itself classified `String`. -/
theorem vin_string_escape_highlighting
    (syn : editorSyntax) (rendered : List Char) (fuel i : Nat)
    (hl : List HL) (ps : Bool) (q : Char) :
    editorUpdateSyntax cSyntax ['"', 'a', '\\', '"', 'b', '"'] =
        List.replicate 6 HL.string ∧
    (syn.flags &&& HL_HIGHLIGHT_STRINGS ≠ 0 → q ≠ Char.ofNat 0 →
     i < rendered.length → rendered.getD i (Char.ofNat 0) = '\\' →
     i + 1 < rendered.length →
     updateSyntaxLoop syn rendered (fuel + 1) hl i ps q =
       updateSyntaxLoop syn rendered fuel
         ((hl.set i HL.string).set (i + 1) HL.string) (i + 2) ps q) ∧
    (syn.flags &&& HL_HIGHLIGHT_STRINGS ≠ 0 → q ≠ Char.ofNat 0 →
     i < rendered.length → rendered.getD i (Char.ofNat 0) = q → q ≠ '\\' →
     updateSyntaxLoop syn rendered (fuel + 1) hl i ps q =
       updateSyntaxLoop syn rendered fuel (hl.set i HL.string) (i + 1) true
         (Char.ofNat 0)) := by
  refine ⟨by decide, ?_, ?_⟩
  · intro hflag hq hi hc hi1
    simp only [updateSyntaxLoop]
    rw [if_pos hi, if_neg (fun hcom => hq hcom.2.1), if_pos ⟨hflag, hq⟩,
        if_pos ⟨hc, hi1⟩]
  · intro hflag hq hi hc hqbs
    simp only [updateSyntaxLoop]
    rw [if_pos hi, if_neg (fun hcom => hq hcom.2.1), if_pos ⟨hflag, hq⟩,
        if_neg (fun hbs => hqbs (hc.symm.trans hbs.1)), if_pos hc]

theorem vin_string_escape_highlighting_witness :
    updateSyntaxLoop cSyntax ['"', 'a', '\\', '"', 'b', '"'] (9 + 1)
        (List.replicate 6 HL.normal) 2 true '"' =
      updateSyntaxLoop cSyntax ['"', 'a', '\\', '"', 'b', '"'] 9
        (((List.replicate 6 HL.normal).set 2 HL.string).set (2 + 1) HL.string)
        (2 + 2) true '"' :=
  (vin_string_escape_highlighting cSyntax ['"', 'a', '\\', '"', 'b', '"'] 9 2
      (List.replicate 6 HL.normal) true '"').2.1
    (by decide) (by decide) (by decide) (by decide) (by decide)

/-! ## Row synchronization invariant (C1) -/

/-- A row's derived fields agree with what the rendering and highlighting
functions produce from its raw text. -/
def rowInSync (syn : editorSyntax) (row : editorRow) : Prop :=
  row.rendered_row = renderRow row.raw_row ∧
  row.highlight_row = editorUpdateSyntax syn (renderRow row.raw_row)

instance (syn : editorSyntax) (row : editorRow) : Decidable (rowInSync syn row) :=
  inferInstanceAs (Decidable (_ ∧ _))

lemma editorUpdateRow_inSync (syn : editorSyntax) (row : editorRow) :
    rowInSync syn (editorUpdateRow syn row) := ⟨rfl, rfl⟩

lemma rowInSync_length {syn : editorSyntax} {row : editorRow} (h : rowInSync syn row) :
    row.rendered_row.length = row.highlight_row.length := by
  rw [h.1, h.2, editorUpdateSyntax_length]

/-- Every row of the buffer is in sync with its raw text. -/
def rowsInSync (E : editorConfig) : Prop := ∀ row ∈ E.rows, rowInSync E.syn row

instance (E : editorConfig) : Decidable (rowsInSync E) :=
  inferInstanceAs (Decidable (∀ row ∈ E.rows, rowInSync E.syn row))

lemma mem_set_cases {α : Type} :
    ∀ (l : List α) (n : Nat) (b a : α), a ∈ l.set n b → a ∈ l ∨ a = b := by
  intro l
  induction l with
  | nil => intro n b a h; simp [List.set] at h
  | cons x xs ih =>
    intro n b a h
    cases n with
    | zero =>
      rcases List.mem_cons.mp h with rfl | h2
      · exact Or.inr rfl
      · exact Or.inl (List.mem_cons_of_mem _ h2)
    | succ n =>
      rcases List.mem_cons.mp h with rfl | h2
      · exact Or.inl (List.mem_cons_self _ _)
      · rcases ih n b a h2 with h3 | h3
        · exact Or.inl (List.mem_cons_of_mem _ h3)
        · exact Or.inr h3

/-- Sufficient condition for the sync invariant to carry over to a mutated
state: the syntax rule is unchanged and every row of the new state is
either an old row or freshly produced by `editorUpdateRow`. -/
lemma rowsInSync_of_rows_syn (F G : editorConfig) (hsyn : G.syn = F.syn)
    (hmem : ∀ row ∈ G.rows, row ∈ F.rows ∨ ∃ r, row = editorUpdateRow F.syn r)
    (h : rowsInSync F) : rowsInSync G := by
  intro row hrow
  rw [hsyn]
  rcases hmem row hrow with hm | ⟨r, rfl⟩
  · exact h row hm
  · exact editorUpdateRow_inSync _ _

lemma rowsInSync_insertRow (E : editorConfig) (h : rowsInSync E)
    (at_ : Nat) (s : List Char) : rowsInSync (editorInsertRow E at_ s) := by
  simp only [editorInsertRow]
  split_ifs with hat
  · exact h
  · refine rowsInSync_of_rows_syn E _ rfl ?_ h
    intro row hrow
    simp only [List.mem_append, List.mem_cons] at hrow
    rcases hrow with h1 | h2 | h3
    · exact Or.inl (List.mem_of_mem_take h1)
    · exact Or.inr ⟨_, h2⟩
    · exact Or.inl (List.mem_of_mem_drop h3)

lemma rowsInSync_rowInsertChar (E : editorConfig) (h : rowsInSync E)
    (idx at_ : Nat) (c : Char) : rowsInSync (editorRowInsertChar E idx at_ c) := by
  refine rowsInSync_of_rows_syn E _ rfl ?_ h
  intro row hrow
  simp only [editorRowInsertChar] at hrow
  rcases mem_set_cases _ _ _ _ hrow with h1 | rfl
  exacts [Or.inl h1, Or.inr ⟨_, rfl⟩]

lemma rowsInSync_rowDelChar (E : editorConfig) (h : rowsInSync E)
    (idx at_ : Nat) : rowsInSync (editorRowDelChar E idx at_) := by
  simp only [editorRowDelChar]
  split_ifs with hat
  · exact h
  · refine rowsInSync_of_rows_syn E _ rfl ?_ h
    intro row hrow
    rcases mem_set_cases _ _ _ _ hrow with h1 | rfl
    exacts [Or.inl h1, Or.inr ⟨_, rfl⟩]

lemma rowsInSync_rowAppendString (E : editorConfig) (h : rowsInSync E)
    (idx : Nat) (t : List Char) : rowsInSync (editorRowAppendString E idx t) := by
  refine rowsInSync_of_rows_syn E _ rfl ?_ h
  intro row hrow
  simp only [editorRowAppendString] at hrow
  rcases mem_set_cases _ _ _ _ hrow with h1 | rfl
  exacts [Or.inl h1, Or.inr ⟨_, rfl⟩]

lemma rowsInSync_delRow (E : editorConfig) (h : rowsInSync E) (at_ : Nat) :
    rowsInSync (editorDelRow E at_) := by
  simp only [editorDelRow]
  split_ifs with hat
  · exact h
  · refine rowsInSync_of_rows_syn E _ rfl ?_ h
    intro row hrow
    simp only [List.mem_append] at hrow
    rcases hrow with h1 | h2
    · exact Or.inl (List.mem_of_mem_take h1)
    · exact Or.inl (List.mem_of_mem_drop h2)

lemma rowsInSync_insertChar (E : editorConfig) (h : rowsInSync E) (c : Char) :
    rowsInSync (editorInsertChar E c) := by
  have h1 : rowsInSync
      (if E.cursor_y = E.rows.length then editorInsertRow E E.rows.length [] else E) := by
    split_ifs with hy
    · exact rowsInSync_insertRow E h _ _
    · exact h
  exact rowsInSync_rowInsertChar _ h1 _ _ _

lemma rowsInSync_delChar (E : editorConfig) (h : rowsInSync E) :
    rowsInSync (editorDelChar E) := by
  simp only [editorDelChar]
  split_ifs with h1 h2 h3
  · exact h
  · exact h
  · have hcx : rowsInSync
        { E with cursor_x := (E.rows.getD (E.cursor_y - 1) default).raw_row.length } := h
    exact rowsInSync_delRow _ (rowsInSync_rowAppendString _ hcx _ _) _
  · exact rowsInSync_rowDelChar _ h _ _

lemma rowsInSync_insertNewline (E : editorConfig) (h : rowsInSync E) :
    rowsInSync (editorInsertNewline E) := by
  simp only [editorInsertNewline]
  split_ifs with h0
  · exact rowsInSync_insertRow E h _ _
  · refine rowsInSync_of_rows_syn (editorInsertRow E (E.cursor_y + 1)
      ((E.rows.getD E.cursor_y default).raw_row.drop E.cursor_x)) _ rfl ?_
      (rowsInSync_insertRow E h _ _)
    intro row hrow
    rcases mem_set_cases _ _ _ _ hrow with h1 | rfl
    exacts [Or.inl h1, Or.inr ⟨_, rfl⟩]

lemma rowsInSync_openRows (E : editorConfig) (h : rowsInSync E)
    (lines : List (List Char)) : rowsInSync (editorOpenRows E lines) := by
  suffices hfold : ∀ (ls : List (List Char)) (F : editorConfig), rowsInSync F →
      rowsInSync (ls.foldl (fun F line => editorInsertRow F F.rows.length line) F) by
    exact hfold lines E h
  intro ls
  induction ls with
  | nil => intro F hF; exact hF
  | cons l ls ih => intro F hF; exact ih _ (rowsInSync_insertRow F hF _ _)

/-- C1.  After every buffer mutation (row insertion, character insertion,
character deletion, text append, newline split, backspace join, and file
load) every row of the buffer stays in sync: its rendered text and
highlight classes are exactly the values re-derived from its raw text,
and in particular the rendered and highlight arrays have equal length. -/
theorem vin_row_sync_invariant (E : editorConfig) (h : rowsInSync E)
    (at_ : Nat) (s : List Char) (c : Char) (idx dat : Nat) (t : List Char)
    (lines : List (List Char)) :
    rowsInSync (editorInsertRow E at_ s) ∧
    rowsInSync (editorInsertChar E c) ∧
    rowsInSync (editorRowDelChar E idx dat) ∧
    rowsInSync (editorDelChar E) ∧
    rowsInSync (editorRowAppendString E idx t) ∧
    rowsInSync (editorInsertNewline E) ∧
    rowsInSync (editorOpenRows E lines) ∧
    (∀ F, rowsInSync F → ∀ row ∈ F.rows,
        row.rendered_row.length = row.highlight_row.length ∧
        row.rendered_row = renderRow row.raw_row ∧
        row.highlight_row = editorUpdateSyntax F.syn (renderRow row.raw_row)) := by
  refine ⟨rowsInSync_insertRow E h at_ s, rowsInSync_insertChar E h c,
    rowsInSync_rowDelChar E h idx dat, rowsInSync_delChar E h,
    rowsInSync_rowAppendString E h idx t, rowsInSync_insertNewline E h,
    rowsInSync_openRows E h lines, ?_⟩
  intro F hF row hrow
  have hs := hF row hrow
  exact ⟨rowInSync_length hs, hs.1, hs.2⟩

theorem vin_row_sync_invariant_witness :
    rowsInSync (editorInsertChar baseConfig 'x') ∧
    rowsInSync (editorOpenRows baseConfig [['h', 'i']]) := by
  have hbase : rowsInSync baseConfig := by
    intro row hrow
    simp [baseConfig] at hrow
  have h := vin_row_sync_invariant baseConfig hbase 0 [] 'x' 0 0 [] [['h', 'i']]
  exact ⟨h.2.1, h.2.2.2.2.2.2.1⟩

/-! ## Cursor right-motion lemmas (C6) -/

lemma editorMoveCursor_rows (c : Nat) (E : editorConfig) :
    (editorMoveCursor c E).rows = E.rows := by
  simp only [editorMoveCursor]
  split_ifs <;> rfl

lemma moveRight_before_end (E : editorConfig)
    (h1 : E.cursor_y < E.rows.length)
    (h2 : E.cursor_x < (E.rows.getD E.cursor_y default).raw_row.length) :
    editorMoveCursor ARROW_RIGHT E = { E with cursor_x := E.cursor_x + 1 } := by
  have hL : ¬(ARROW_RIGHT = ARROW_LEFT ∨ ARROW_RIGHT = ('h').toNat) := by decide
  have hR : True ∨ ARROW_RIGHT = ('l').toNat := Or.inl trivial
  have hcond : E.cursor_y < E.rows.length ∧
      E.cursor_x < (E.rows.getD E.cursor_y default).raw_row.length := ⟨h1, h2⟩
  have hge : ¬(E.cursor_y ≥ E.rows.length) := not_le.mpr h1
  have hclamp : ¬(E.cursor_x + 1 > (E.rows.getD E.cursor_y default).raw_row.length) :=
    not_lt.mpr h2
  simp only [editorMoveCursor]
  rw [if_neg hL, if_pos hR, if_pos hcond]
  simp only [List.getD_eq_getElem?_getD] at hclamp
  simp [hge, hclamp]

lemma moveRight_at_end (E : editorConfig)
    (h1 : E.cursor_y < E.rows.length)
    (h2 : E.cursor_x = (E.rows.getD E.cursor_y default).raw_row.length) :
    editorMoveCursor ARROW_RIGHT E =
      { E with cursor_y := E.cursor_y + 1, cursor_x := 0 } := by
  have hL : ¬(ARROW_RIGHT = ARROW_LEFT ∨ ARROW_RIGHT = ('h').toNat) := by decide
  have hR : True ∨ ARROW_RIGHT = ('l').toNat := Or.inl trivial
  have hc1 : ¬(E.cursor_y < E.rows.length ∧
      E.cursor_x < (E.rows.getD E.cursor_y default).raw_row.length) := by
    rintro ⟨-, hlt⟩; omega
  have hcond : E.cursor_y < E.rows.length ∧
      E.cursor_x = (E.rows.getD E.cursor_y default).raw_row.length := ⟨h1, h2⟩
  simp only [editorMoveCursor]
  rw [if_neg hL, if_pos hR, if_neg hc1, if_pos hcond]
  simp

lemma moveRight_past_end (E : editorConfig)
    (h1 : E.cursor_y < E.rows.length)
    (h2 : E.cursor_x > (E.rows.getD E.cursor_y default).raw_row.length) :
    editorMoveCursor ARROW_RIGHT E =
      { E with cursor_x := (E.rows.getD E.cursor_y default).raw_row.length } := by
  have hL : ¬(ARROW_RIGHT = ARROW_LEFT ∨ ARROW_RIGHT = ('h').toNat) := by decide
  have hR : True ∨ ARROW_RIGHT = ('l').toNat := Or.inl trivial
  have hc1 : ¬(E.cursor_y < E.rows.length ∧
      E.cursor_x < (E.rows.getD E.cursor_y default).raw_row.length) := by
    rintro ⟨-, hlt⟩; omega
  have hc2 : ¬(E.cursor_y < E.rows.length ∧
      E.cursor_x = (E.rows.getD E.cursor_y default).raw_row.length) := by
    rintro ⟨-, heq⟩; omega
  have hge : ¬(E.cursor_y ≥ E.rows.length) := not_le.mpr h1
  simp only [editorMoveCursor]
  rw [if_neg hL, if_pos hR, if_neg hc1, if_neg hc2]
  simp only [List.getD_eq_getElem?_getD] at h2
  simp [hge, h2]

lemma moveRight_beyond (E : editorConfig) (h1 : ¬(E.cursor_y < E.rows.length)) :
    editorMoveCursor ARROW_RIGHT E =
      if E.cursor_x > 0 then { E with cursor_x := 0 } else E := by
  have hL : ¬(ARROW_RIGHT = ARROW_LEFT ∨ ARROW_RIGHT = ('h').toNat) := by decide
  have hR : True ∨ ARROW_RIGHT = ('l').toNat := Or.inl trivial
  have hc1 : ¬(E.cursor_y < E.rows.length ∧
      E.cursor_x < (E.rows.getD E.cursor_y default).raw_row.length) := by
    rintro ⟨hlt, -⟩; exact h1 hlt
  have hc2 : ¬(E.cursor_y < E.rows.length ∧
      E.cursor_x = (E.rows.getD E.cursor_y default).raw_row.length) := by
    rintro ⟨hlt, -⟩; exact h1 hlt
  have hge : E.cursor_y ≥ E.rows.length := not_lt.mp h1
  simp only [editorMoveCursor]
  rw [if_neg hL, if_pos hR, if_neg hc1, if_neg hc2]
  simp [hge]

lemma moveRight_sentinel (E : editorConfig)
    (h1 : E.cursor_y = E.rows.length) (h2 : E.cursor_x = 0) :
    editorMoveCursor ARROW_RIGHT E = E := by
  rw [moveRight_beyond E (by omega)]
  simp [h2]

lemma moveRight_no_wrap (E : editorConfig) (h : E.cursor_y ≤ E.rows.length) :
    (editorMoveCursor ARROW_RIGHT E).cursor_y ≤ E.rows.length ∧
    ((editorMoveCursor ARROW_RIGHT E).cursor_y = E.rows.length →
      (editorMoveCursor ARROW_RIGHT E).cursor_x = 0) := by
  rcases Nat.lt_or_ge E.cursor_y E.rows.length with hy | hy
  · rcases Nat.lt_trichotomy E.cursor_x
        (E.rows.getD E.cursor_y default).raw_row.length with hx | hx | hx
    · rw [moveRight_before_end E hy hx]
      constructor
      · exact le_of_lt hy
      · intro heq; exfalso; simp at heq; omega
    · rw [moveRight_at_end E hy hx]
      exact ⟨by simpa using hy, fun _ => rfl⟩
    · rw [moveRight_past_end E hy hx]
      constructor
      · exact le_of_lt hy
      · intro heq; exfalso; simp at heq; omega
  · rw [moveRight_beyond E (not_lt.mpr hy)]
    have hyy : E.cursor_y = E.rows.length := le_antisymm h hy
    split_ifs with hx
    · exact ⟨by simpa using h, fun _ => rfl⟩
    · exact ⟨h, fun _ => by omega⟩

lemma moveRightN_sentinel (n : Nat) : ∀ (E : editorConfig),
    E.cursor_y = E.rows.length → E.cursor_x = 0 → moveRightN n E = E := by
  induction n with
  | zero => intro E _ _; rfl
  | succ n ih =>
    intro E h1 h2
    show moveRightN n (editorMoveCursor ARROW_RIGHT E) = E
    rw [moveRight_sentinel E h1 h2]
    exact ih E h1 h2

/-- C6.  Right-motion clamp: a right move increments the column exactly
when the cursor is before end-of-row; exactly at end-of-row it moves to
the start of the next row; the end-of-buffer sentinel `(|rows|, 0)` is a
fixed point; from any position at or above the sentinel the motion never
passes it; and repeated right moves from the last column of the last row
stop at the sentinel forever. -/
theorem vin_right_motion_clamp (E : editorConfig) :
    (E.cursor_y < E.rows.length →
      E.cursor_x < (E.rows.getD E.cursor_y default).raw_row.length →
      editorMoveCursor ARROW_RIGHT E = { E with cursor_x := E.cursor_x + 1 }) ∧
    (E.cursor_y < E.rows.length →
      E.cursor_x = (E.rows.getD E.cursor_y default).raw_row.length →
      editorMoveCursor ARROW_RIGHT E =
        { E with cursor_y := E.cursor_y + 1, cursor_x := 0 }) ∧
    (E.cursor_y = E.rows.length → E.cursor_x = 0 →
      editorMoveCursor ARROW_RIGHT E = E) ∧
    (E.cursor_y ≤ E.rows.length →
      (editorMoveCursor ARROW_RIGHT E).cursor_y ≤ E.rows.length ∧
      ((editorMoveCursor ARROW_RIGHT E).cursor_y = E.rows.length →
        (editorMoveCursor ARROW_RIGHT E).cursor_x = 0)) ∧
    (E.rows ≠ [] → E.cursor_y = E.rows.length - 1 →
      E.cursor_x = (E.rows.getD E.cursor_y default).raw_row.length →
      ∀ n, moveRightN (n + 1) E =
        { E with cursor_y := E.rows.length, cursor_x := 0 }) := by
  refine ⟨moveRight_before_end E, moveRight_at_end E, moveRight_sentinel E,
    moveRight_no_wrap E, ?_⟩
  intro hne hy hx n
  have hlen : 0 < E.rows.length := List.length_pos.mpr hne
  have hy' : E.cursor_y < E.rows.length := by omega
  have heq : E.cursor_y + 1 = E.rows.length := by omega
  show moveRightN n (editorMoveCursor ARROW_RIGHT E) = _
  rw [moveRight_at_end E hy' hx, heq]
  exact moveRightN_sentinel n _ rfl rfl

/-- The one-row buffer with the cursor on the last column of the last
row, used to exercise the cursor-clamp theorem. -/
def lastColState : editorConfig :=
  { baseConfig with
    rows := [mkRow emptySyntax ['a', 'b']]
    cursor_x := 2
    cursor_y := 0 }

theorem vin_right_motion_clamp_witness :
    moveRightN (0 + 1) lastColState =
      { lastColState with cursor_y := lastColState.rows.length, cursor_x := 0 } :=
  (vin_right_motion_clamp lastColState).2.2.2.2 (by decide) (by decide) (by decide) 0

/-! ## Normal-mode Enter (C5) -/

/-- The two-row state used to exhibit the Enter fallthrough: NORMAL mode,
empty pending-keys buffer, cursor at the end of the first of two two-
character rows. -/
def enterState : editorConfig :=
  { baseConfig with
    rows := [mkRow emptySyntax ['a', 'b'], mkRow emptySyntax ['c', 'd']]
    cursor_x := 2
    cursor_y := 0 }

/-- C5 (counterexample).  In NORMAL mode with an empty pending-keys
accumulator, pressing Enter is NOT just the down-motion primitive: from
`enterState` (cursor at column 2) the down motion alone would keep column
2, but the keypress handler also zeroes the column, because `case '\r':`
falls through into the `HOME_KEY`/`'0'` handler. -/
theorem vin_normal_enter_counterexample :
    editorProcessKeypress enterState (('\r').toNat) SaveOutcome.success ≠
      CmdResult.cont (editorMoveCursor ARROW_DOWN enterState) := by decide

/-- C5 (amended).  In NORMAL mode with an empty pending-keys accumulator,
pressing Enter performs the down-motion primitive and then sets the
cursor column to 0 (the missing `break` after `case '\r':` falls through
into the Home/`'0'` handler). -/
theorem vin_normal_enter_amended (E : editorConfig) (out : SaveOutcome)
    (hm : E.mode = Mode.normal) (hb : E.normal_buf = []) :
    editorProcessKeypress E (('\r').toNat) out =
      CmdResult.cont { editorMoveCursor ARROW_DOWN E with cursor_x := 0 } := by
  have hmi : ¬(E.mode = Mode.insert) := by rw [hm]; decide
  have k1 : ¬(('\r').toNat = ('i').toNat) := by decide
  have k2 : ¬(('\r').toNat = (':').toNat) := by decide
  have k3 : ¬(('\r').toNat = ('\x1b').toNat) := by decide
  simp only [editorProcessKeypress]
  rw [if_neg hmi, if_pos hm, if_pos hb, if_neg k1, if_neg k2, if_neg k3,
      if_pos trivial]

theorem vin_normal_enter_amended_witness :
    editorProcessKeypress enterState (('\r').toNat) SaveOutcome.success =
      CmdResult.cont { editorMoveCursor ARROW_DOWN enterState with cursor_x := 0 } :=
  vin_normal_enter_amended enterState SaveOutcome.success rfl rfl

/-! ## Split/join round trip (C7) -/

lemma getD_take_lt {α : Type} (l : List α) (n i : Nat) (d : α) (h : i < n) :
    (l.take n).getD i d = l.getD i d := by
  induction l generalizing n i with
  | nil => simp
  | cons a l ih =>
    cases n with
    | zero => omega
    | succ n =>
      cases i with
      | zero => rfl
      | succ i => simpa using ih n i (by omega)

lemma take_succ_getD {α : Type} (l : List α) (n : Nat) (d : α) (h : n < l.length) :
    l.take (n + 1) = l.take n ++ [l.getD n d] := by
  induction l generalizing n with
  | nil => simp at h
  | cons a l ih =>
    cases n with
    | zero => rfl
    | succ n => simpa using ih n (by simpa using h)

lemma drop_eq_getD_cons {α : Type} (l : List α) (n : Nat) (d : α) (h : n < l.length) :
    l.drop n = l.getD n d :: l.drop (n + 1) := by
  induction l generalizing n with
  | nil => simp at h
  | cons a l ih =>
    cases n with
    | zero => rfl
    | succ n => simpa using ih n (by simpa using h)

lemma drop_append_length_two {α : Type} (A : List α) (x y : α) (B : List α) :
    (A ++ x :: y :: B).drop (A.length + 2) = B := by
  induction A with
  | nil => rfl
  | cons a A ih => simp [ih]

lemma editorInsertRow_rows (E : editorConfig) (at_ : Nat) (s : List Char)
    (h : at_ ≤ E.rows.length) :
    editorInsertRow E at_ s =
      { E with
        rows := E.rows.take at_ ++ editorUpdateRow E.syn ⟨s, [], []⟩ :: E.rows.drop at_
        dirty := true } := by
  rw [editorInsertRow, if_neg (by omega)]

lemma insertNewline_spec_zero (E : editorConfig)
    (hr : E.cursor_y < E.rows.length) (hcx : E.cursor_x = 0) :
    editorInsertNewline E =
      { E with
        rows := E.rows.take E.cursor_y ++
          editorUpdateRow E.syn ⟨[], [], []⟩ :: E.rows.drop E.cursor_y
        dirty := true
        cursor_x := 0
        cursor_y := E.cursor_y + 1 } := by
  rw [editorInsertNewline, if_pos hcx, editorInsertRow_rows E _ _ (le_of_lt hr)]

lemma set_middle {α : Type} (R : List α) (r : Nat) (d : α) (h : r < R.length)
    (u x' : α) (tail : List α) :
    (R.take (r + 1) ++ u :: tail).set r x' = R.take r ++ x' :: u :: tail := by
  rw [take_succ_getD R r d h, List.append_assoc, List.singleton_append]
  have hlen : (R.take r).length = r := by rw [List.length_take]; omega
  calc (R.take r ++ R.getD r d :: u :: tail).set r x'
      = (R.take r ++ R.getD r d :: u :: tail).set (R.take r).length x' := by rw [hlen]
    _ = R.take r ++ x' :: u :: tail := set_append_length _ _ _ _

lemma getD_middle {α : Type} (R : List α) (r : Nat) (d : α) (h : r < R.length)
    (u : α) (tail : List α) :
    (R.take (r + 1) ++ u :: tail).getD r d = R.getD r d := by
  rw [getD_append_lt _ _ _ _ (by rw [List.length_take]; omega),
      getD_take_lt _ _ _ _ (by omega)]

lemma editorUpdateRow_raw_only (syn : editorSyntax) (t b : List Char) (c : List HL) :
    editorUpdateRow syn ⟨t, b, c⟩ = editorUpdateRow syn ⟨t, [], []⟩ := rfl

lemma insertNewline_spec_pos (E : editorConfig)
    (hr : E.cursor_y < E.rows.length) (hcx : E.cursor_x ≠ 0) :
    editorInsertNewline E =
      { E with
        rows := E.rows.take E.cursor_y ++
          editorUpdateRow E.syn
            ⟨(E.rows.getD E.cursor_y default).raw_row.take E.cursor_x, [], []⟩ ::
          editorUpdateRow E.syn
            ⟨(E.rows.getD E.cursor_y default).raw_row.drop E.cursor_x, [], []⟩ ::
          E.rows.drop (E.cursor_y + 1)
        dirty := true
        cursor_x := 0
        cursor_y := E.cursor_y + 1 } := by
  rw [editorInsertNewline, if_neg hcx, editorInsertRow_rows E _ _ hr]
  dsimp only
  simp only [Nat.succ_eq_add_one]
  rw [getD_middle E.rows E.cursor_y default hr, set_middle E.rows E.cursor_y default hr,
      editorUpdateRow_raw_only]

lemma delChar_join_spec (F : editorConfig) (A : List editorRow) (x y : editorRow)
    (B : List editorRow) (hrows : F.rows = A ++ x :: y :: B)
    (hy : F.cursor_y = A.length + 1) (hx : F.cursor_x = 0) :
    editorDelChar F =
      { F with
        rows := A ++ editorUpdateRow F.syn ⟨x.raw_row ++ y.raw_row, [], []⟩ :: B
        cursor_y := A.length
        cursor_x := x.raw_row.length
        dirty := true } := by
  have hlen : F.rows.length = A.length + 2 + B.length := by
    rw [hrows]; simp [List.length_append]; omega
  rw [editorDelChar, if_neg (by omega), if_neg (by rintro ⟨-, h0⟩; omega), if_pos hx]
  simp only [editorRowAppendString, editorDelRow]
  rw [hy]
  have e1 : A.length + 1 - 1 = A.length := by omega
  rw [e1, hrows, getD_append_length, getD_append_length_succ, set_append_length,
      editorUpdateRow_raw_only]
  rw [if_neg (show ¬(A.length + 1 ≥
      (A ++ editorUpdateRow F.syn ⟨x.raw_row ++ y.raw_row, [], []⟩ :: y :: B).length)
      from by simp [List.length_append])]
  have e2 : A.length + 1 + 1 = A.length + 2 := by omega
  rw [take_append_length_succ, e2, drop_append_length_two, List.append_assoc,
      List.singleton_append]
  simp

lemma map_raw_middle (E : editorConfig) (r : Nat) (hr : r < E.rows.length)
    (z : editorRow) (hz : z.raw_row = (E.rows.getD r default).raw_row) :
    (E.rows.take r ++ z :: E.rows.drop (r + 1)).map editorRow.raw_row =
      E.rows.map editorRow.raw_row := by
  conv_rhs => rw [← take_reconstruct E.rows r default hr]
  simp [hz]

/-- C7.  Split/join round trip: for every buffer, valid row index `r` and
column `col` within row `r`'s raw text, splitting the line at `(r, col)`
(`editorInsertNewline`) and then joining the new row back onto its
predecessor (`editorDelChar` at `(r + 1, 0)`, where the split leaves the
cursor) restores the original sequence of raw row texts exactly,
including the `col = 0` case. -/
theorem vin_split_join_round_trip (E : editorConfig) (r col : Nat)
    (hy : E.cursor_y = r) (hx : E.cursor_x = col)
    (hr : r < E.rows.length)
    (hcol : col ≤ (E.rows.getD r default).raw_row.length) :
    (editorDelChar (editorInsertNewline E)).rows.map editorRow.raw_row =
      E.rows.map editorRow.raw_row := by
  subst hy hx
  by_cases hcx : E.cursor_x = 0
  · rw [insertNewline_spec_zero E hr hcx,
        drop_eq_getD_cons E.rows E.cursor_y default hr]
    rw [delChar_join_spec _ (E.rows.take E.cursor_y)
        (editorUpdateRow E.syn ⟨[], [], []⟩) (E.rows.getD E.cursor_y default)
        (E.rows.drop (E.cursor_y + 1)) rfl
        (by dsimp only; rw [List.length_take]; omega) rfl]
    exact map_raw_middle E E.cursor_y hr _ (by simp [editorUpdateRow])
  · rw [insertNewline_spec_pos E hr hcx]
    rw [delChar_join_spec _ (E.rows.take E.cursor_y)
        (editorUpdateRow E.syn
          ⟨(E.rows.getD E.cursor_y default).raw_row.take E.cursor_x, [], []⟩)
        (editorUpdateRow E.syn
          ⟨(E.rows.getD E.cursor_y default).raw_row.drop E.cursor_x, [], []⟩)
        (E.rows.drop (E.cursor_y + 1)) rfl
        (by dsimp only; rw [List.length_take]; omega) rfl]
    exact map_raw_middle E E.cursor_y hr _
      (by simp [editorUpdateRow, List.take_append_drop])

/-- The one-row buffer with the cursor mid-row, used to exercise the
split/join round trip. -/
def splitState : editorConfig :=
  { baseConfig with
    rows := [mkRow emptySyntax ['a', 'b']]
    cursor_x := 1
    cursor_y := 0 }

theorem vin_split_join_round_trip_witness :
    (editorDelChar (editorInsertNewline splitState)).rows.map editorRow.raw_row =
      splitState.rows.map editorRow.raw_row :=
  vin_split_join_round_trip splitState 0 1 rfl rfl (by decide) (by decide)

/-! ## Command execution, save, sentinel insertion (C8, C9, C10) -/

lemma insertChar_sentinel_spec (E : editorConfig) (c : Char)
    (hy : E.cursor_y = E.rows.length) (hx : E.cursor_x = 0) :
    editorInsertChar E c =
      { E with
        rows := E.rows ++ [editorUpdateRow E.syn ⟨[c], [], []⟩]
        dirty := true
        cursor_x := 1 } := by
  simp only [editorInsertChar]
  rw [if_pos hy, editorInsertRow_rows E _ _ le_rfl, List.take_length, List.drop_length]
  simp only [editorRowInsertChar]
  rw [hy, hx, getD_append_length E.rows _ [] default]
  rw [if_neg (by simp), set_append_length E.rows _ _ []]
  rw [editorUpdateRow_raw_only]
  simp [editorUpdateRow]

lemma editorRowsToString_length (E : editorConfig) :
    (editorRowsToString E).length =
      (E.rows.map (fun row => row.raw_row.length + 1)).sum := by
  rw [editorRowsToString]
  suffices haux : ∀ (rows : List editorRow) (acc : List Char),
      (rows.foldl (fun acc r => acc ++ r.raw_row ++ ['\n']) acc).length =
        acc.length + (rows.map (fun row => row.raw_row.length + 1)).sum by
    simpa using haux E.rows []
  intro rows
  induction rows with
  | nil => intro acc; simp
  | cons r rows ih =>
    intro acc
    simp only [List.foldl_cons, List.map_cons, List.sum_cons, ih,
      List.length_append]
    simp
    omega

/-- C8.  Command mini-language: `q` while dirty keeps the editor running,
changes nothing but the status message, and tells the user to force-quit;
`q` while clean and `q!` in any state exit successfully; `w` saves; any
other non-empty command reports an unsupported-command message, and the
status-message primitive touches neither buffer, cursor, nor dirty
state. -/
theorem vin_command_semantics (E : editorConfig) (out : SaveOutcome) :
    (E.command_buf = ("q").toList → E.dirty = true →
      editorExecuteCommand E out = CmdResult.cont (editorSetStatusMessage E
        ("File has unsaved changes. Use :q! to force quit").toList)) ∧
    (E.command_buf = ("q").toList → E.dirty = false →
      editorExecuteCommand E out = CmdResult.exited) ∧
    (E.command_buf = ("q!").toList → editorExecuteCommand E out = CmdResult.exited) ∧
    (E.command_buf = ("w").toList →
      editorExecuteCommand E out = CmdResult.cont (editorSave E out)) ∧
    (E.command_buf ≠ [] → E.command_buf ≠ ("q").toList →
      E.command_buf ≠ ("q!").toList → E.command_buf ≠ ("w").toList →
      editorExecuteCommand E out = CmdResult.cont (editorSetStatusMessage E
        (("Unsupported command: ").toList ++ E.command_buf))) ∧
    (∀ (F : editorConfig) (s : List Char),
      (editorSetStatusMessage F s).rows = F.rows ∧
      (editorSetStatusMessage F s).dirty = F.dirty ∧
      (editorSetStatusMessage F s).cursor_x = F.cursor_x ∧
      (editorSetStatusMessage F s).cursor_y = F.cursor_y) := by
  refine ⟨?_, ?_, ?_, ?_, ?_, fun F s => ⟨rfl, rfl, rfl, rfl⟩⟩
  · intro hq hd
    rw [editorExecuteCommand, if_pos hq, if_pos hd]
  · intro hq hd
    rw [editorExecuteCommand, if_pos hq, if_neg (by simp [hd])]
  · intro hq
    rw [editorExecuteCommand, if_neg (by rw [hq]; decide), if_pos hq]
  · intro hw
    rw [editorExecuteCommand, if_neg (by rw [hw]; decide),
        if_neg (by rw [hw]; decide), if_pos hw]
  · intro hne h1 h2 h3
    rw [editorExecuteCommand, if_neg h1, if_neg h2, if_neg h3]

theorem vin_command_semantics_witness :
    editorExecuteCommand { baseConfig with command_buf := ['q'], dirty := true }
        SaveOutcome.success =
      CmdResult.cont (editorSetStatusMessage
        { baseConfig with command_buf := ['q'], dirty := true }
        ("File has unsaved changes. Use :q! to force quit").toList) :=
  (vin_command_semantics { baseConfig with command_buf := ['q'], dirty := true }
    SaveOutcome.success).1 (by decide) rfl

/-- C9.  Save atomicity: whatever the I/O outcome, saving never touches
the rows; on an open, truncate, or short-write failure the dirty flag is
untouched and the status line reports an I/O error carrying the
underlying error description; on success the dirty flag is cleared and
the status line reports the byte count, which is the sum over rows of the
raw length plus one newline. -/
theorem vin_save_atomicity (E : editorConfig) (err : List Char)
    (hfn : E.filename ≠ []) :
    (∀ out, (editorSave E out).rows = E.rows) ∧
    ((editorSave E (SaveOutcome.openFail err)).dirty = E.dirty ∧
      (editorSave E (SaveOutcome.openFail err)).command_bar =
        ((("Can't save! I/O error: ").toList ++ err).take 79)) ∧
    ((editorSave E (SaveOutcome.truncateFail err)).dirty = E.dirty ∧
      (editorSave E (SaveOutcome.truncateFail err)).command_bar =
        ((("Can't save! I/O error: ").toList ++ err).take 79)) ∧
    ((editorSave E (SaveOutcome.shortWrite err)).dirty = E.dirty ∧
      (editorSave E (SaveOutcome.shortWrite err)).command_bar =
        ((("Can't save! I/O error: ").toList ++ err).take 79)) ∧
    ((editorSave E SaveOutcome.success).dirty = false ∧
      (editorSave E SaveOutcome.success).command_bar =
        ((natToChars (editorRowsToString E).length ++
          (" bytes written to disk").toList).take 79)) ∧
    (editorRowsToString E).length =
      (E.rows.map (fun row => row.raw_row.length + 1)).sum := by
  refine ⟨?_, ?_, ?_, ?_, ?_, editorRowsToString_length E⟩
  · intro out
    cases out <;> (simp only [editorSave]; rw [if_neg hfn]; try rfl)
  · constructor <;> (simp only [editorSave]; rw [if_neg hfn]; try rfl)
  · constructor <;> (simp only [editorSave]; rw [if_neg hfn]; try rfl)
  · constructor <;> (simp only [editorSave]; rw [if_neg hfn]; try rfl)
  · constructor <;> (simp only [editorSave]; rw [if_neg hfn]; try rfl)

def saveState : editorConfig :=
  { baseConfig with
    rows := [mkRow emptySyntax ['h', 'i']]
    filename := ['f']
    dirty := true }

theorem vin_save_atomicity_witness :
    (editorSave saveState SaveOutcome.success).dirty = false ∧
    (editorSave saveState (SaveOutcome.openFail ['e'])).dirty = saveState.dirty ∧
    (editorRowsToString saveState).length =
      (saveState.rows.map (fun row => row.raw_row.length + 1)).sum := by
  have h := vin_save_atomicity saveState ['e'] (by decide)
  exact ⟨h.2.2.2.2.1.1, h.2.1.1, h.2.2.2.2.2⟩

/-- C10.  Inserting a character with the cursor on the one-past-the-last
sentinel row first appends a fresh empty row, then inserts the character
at column 0 of that row: the buffer grows by exactly one row, the new
character is that row's only raw character, the cursor column advances to
1, and the cursor row is unchanged. -/
theorem vin_insert_at_sentinel (E : editorConfig) (c : Char)
    (hy : E.cursor_y = E.rows.length) (hx : E.cursor_x = 0) :
    (editorInsertChar E c).rows =
      E.rows ++ [editorUpdateRow E.syn ⟨[c], [], []⟩] ∧
    (editorInsertChar E c).rows.length = E.rows.length + 1 ∧
    ((editorInsertChar E c).rows.getD E.rows.length default).raw_row = [c] ∧
    (editorInsertChar E c).cursor_x = 1 ∧
    (editorInsertChar E c).cursor_y = E.cursor_y := by
  rw [insertChar_sentinel_spec E c hy hx]
  refine ⟨rfl, by simp, ?_, rfl, rfl⟩
  have hget : (E.rows ++ editorUpdateRow E.syn ⟨[c], [], []⟩ :: []).getD
      E.rows.length default = editorUpdateRow E.syn ⟨[c], [], []⟩ :=
    getD_append_length E.rows _ [] default
  simp only [hget]
  rfl

def sentinelState : editorConfig :=
  { baseConfig with
    rows := [mkRow emptySyntax ['a']]
    cursor_x := 0
    cursor_y := 1 }

theorem vin_insert_at_sentinel_witness :
    (editorInsertChar sentinelState 'z').rows =
      sentinelState.rows ++ [editorUpdateRow sentinelState.syn ⟨['z'], [], []⟩] ∧
    (editorInsertChar sentinelState 'z').cursor_x = 1 := by
  have h := vin_insert_at_sentinel sentinelState 'z' rfl rfl
  exact ⟨h.1, h.2.2.2.1⟩
